import Mathlib

/-!
Verification development for the RocksDB dump-context excerpt of ArangoDB
(RocksDBDumpContext.h).  The header under study declares the dump context,
its options struct (with defaults and inspection/fallback semantics), the
WorkItem/WorkItems work-partitioning queue, the batch registry and the
consumer-facing `next` operation.  Definitions below are shallow embeddings
of the declarations and inline bodies found in the header; operations whose
bodies are not part of the excerpt (only declared there) are modelled from
the specification text, and each such definition says so in its doc comment.
-/

set_option maxHeartbeats 1000000

namespace ArangoDump

/-- Maximum value of a C++ std::uint64_t, i.e. UINT64_MAX. -/
def UINT64MAX : Nat := 2 ^ 64 - 1

/-- Embeds `struct RocksDBDumpContextOptions`: `batchSize` (u64, default
16*1024), `prefetchCount` (u64, default 2), `parallelism` (u64, default 2),
`ttl` (double, default 600.0, modelled as a rational), `shards`
(vector of strings, default empty).  Field defaults are the member
initializers of the C++ struct. -/
structure RocksDBDumpContextOptions where
  batchSize : Nat := 16 * 1024
  prefetchCount : Nat := 2
  parallelism : Nat := 2
  ttl : ℚ := 600
  shards : List String := []
deriving Repr, DecidableEq

/-- A value appearing in a configuration document: an unsigned integer, a
floating-point number (modelled as a rational) or a list of strings. -/
inductive FieldVal where
  | num (n : Nat)
  | dbl (q : ℚ)
  | strs (l : List String)
deriving Repr, DecidableEq

/-- A configuration document: an association list of field names to values.
Duplicate names resolve to the first occurrence. -/
def lookupField (doc : List (String × FieldVal)) (name : String) :
    Option FieldVal :=
  (doc.find? (fun p => p.1 == name)).map (fun p => p.2)

/-- Embeds the `inspect` friend function of `RocksDBDumpContextOptions`:
each of the five known fields is read from the document when present and
otherwise falls back to the struct's default member initializer
(`.fallback(f.keep())`); fields of the document with any other name are
not consulted.  The unknown-field tolerance of the inspection framework is
as stated by the spec (unrecognized fields are ignored). -/
def parseRocksDBDumpContextOptions (doc : List (String × FieldVal)) :
    RocksDBDumpContextOptions :=
  { batchSize :=
      match lookupField doc "batchSize" with
      | some (.num n) => n
      | _ => 16 * 1024
    prefetchCount :=
      match lookupField doc "prefetchCount" with
      | some (.num n) => n
      | _ => 2
    parallelism :=
      match lookupField doc "parallelism" with
      | some (.num n) => n
      | _ => 2
    ttl :=
      match lookupField doc "ttl" with
      | some (.dbl q) => q
      | _ => 600
    shards :=
      match lookupField doc "shards" with
      | some (.strs l) => l
      | _ => [] }

/-- Placeholder for `RocksDBDumpContext::CollectionInfo` (collection guard,
RocksDB key bounds and boundary slices).  Its members are engine resources;
only its identity (which shard it designates) matters to the claims. -/
structure CollectionInfo where
  shard : String
deriving Repr, DecidableEq

/-- Embeds `RocksDBDumpContext::WorkItem`: a (possibly null) shared pointer
to a CollectionInfo plus a numeric sub-range, `lowerBound` defaulting to 0
and `upperBound` defaulting to UINT64_MAX. -/
structure WorkItem where
  collection : Option CollectionInfo := none
  lowerBound : Nat := 0
  upperBound : Nat := UINT64MAX
deriving Repr, DecidableEq

/-- Embeds `WorkItem::empty`:
`collection == nullptr && lowerBound == 0 && upperBound == UINT64_MAX`. -/
def WorkItem.empty (w : WorkItem) : Bool :=
  w.collection.isNone && w.lowerBound == 0 && w.upperBound == UINT64MAX

/-- A default-constructed WorkItem (all members take their initializers). -/
def WorkItem.defaultItem : WorkItem := {}

/-- Embeds `RocksDBDumpContext::Batch`: the shard name and the serialized
content accumulated for it. -/
structure Batch where
  shard : String
  content : String
deriving Repr, DecidableEq

/-- Total serialized length of a list of entries. -/
def entriesLen (l : List String) : Nat := (l.map String.length).sum

/-- Modelled from the spec: the loop body of
`RocksDBDumpContext::handleWorkItem` is not part of the excerpt (only its
declaration).  Per the spec a worker sequentially reads entries of the
item's sub-range, "accumulating serialized content until either the
configured batchSize is reached or the range is exhausted"; `batchSize` is
the maximum number of bytes per batch payload, so an entry is appended only
while the accumulated content stays within the bound (the first entry of a
batch is always read, guaranteeing progress).  Returns the accumulated
batch entries and the not-yet-consumed rest of the range. -/
def fillBatch (b : Nat) (acc : List String) : List String →
    List String × List String
  | [] => (acc, [])
  | e :: rest =>
    if acc = [] ∨ entriesLen acc + e.length ≤ b then
      fillBatch b (acc ++ [e]) rest
    else (acc, e :: rest)

/-- Modelled from the spec: one step of
`RocksDBDumpContext::handleWorkItem` on the entries of a work item's
sub-range: it fills one batch and leaves the remainder of the range, which
the worker re-enqueues as a new WorkItem when non-empty. -/
def handleWorkItem (b : Nat) (entries : List String) :
    List String × List String :=
  fillBatch b [] entries

end ArangoDump

namespace ArangoDump

theorem fillBatch_append (b : Nat) (l : List String) :
    ∀ acc, (fillBatch b acc l).1 ++ (fillBatch b acc l).2 = acc ++ l := by
  induction l with
  | nil => intro acc; simp [fillBatch]
  | cons e rest ih =>
    intro acc
    by_cases h : acc = [] ∨ entriesLen acc + e.length ≤ b
    · rw [fillBatch, if_pos h]
      rw [ih (acc ++ [e])]
      simp
    · rw [fillBatch, if_neg h]

theorem fillBatch_rest_length (b : Nat) (l : List String) :
    ∀ acc, (fillBatch b acc l).2.length ≤ l.length := by
  induction l with
  | nil => intro acc; simp [fillBatch]
  | cons e rest ih =>
    intro acc
    by_cases h : acc = [] ∨ entriesLen acc + e.length ≤ b
    · rw [fillBatch, if_pos h]
      exact le_trans (ih (acc ++ [e])) (Nat.le_succ _)
    · rw [fillBatch, if_neg h]

theorem fillBatch_consumes (b : Nat) (e : String) (rest : List String) :
    (fillBatch b [] (e :: rest)).2.length < (e :: rest).length := by
  rw [fillBatch, if_pos (Or.inl rfl)]
  exact Nat.lt_succ_of_le (fillBatch_rest_length b rest ([] ++ [e]))

theorem entriesLen_append (l1 l2 : List String) :
    entriesLen (l1 ++ l2) = entriesLen l1 + entriesLen l2 := by
  simp [entriesLen]

theorem fillBatch_len_le (b : Nat) (l : List String)
    (hl : ∀ e ∈ l, e.length ≤ b) :
    ∀ acc, entriesLen acc ≤ b → entriesLen (fillBatch b acc l).1 ≤ b := by
  induction l with
  | nil => intro acc hacc; simpa [fillBatch] using hacc
  | cons e rest ih =>
    intro acc hacc
    have hrest : ∀ x ∈ rest, x.length ≤ b := fun x hx =>
      hl x (List.mem_cons_of_mem e hx)
    by_cases h : acc = [] ∨ entriesLen acc + e.length ≤ b
    · rw [fillBatch, if_pos h]
      refine ih hrest (acc ++ [e]) ?_
      rcases h with h | h
      · subst h
        simpa [entriesLen] using hl e (List.mem_cons_self e rest)
      · rw [entriesLen_append]
        simpa [entriesLen] using h
    · rw [fillBatch, if_neg h]
      exact hacc

theorem string_join_length (l : List String) :
    (String.join l).length = entriesLen l := by
  have aux : ∀ (l : List String) (a : String),
      (l.foldl (fun r s => r ++ s) a).length = a.length + entriesLen l := by
    intro l
    induction l with
    | nil => intro a; simp [entriesLen]
    | cons e rest ih =>
      intro a
      simp only [List.foldl_cons, ih (a ++ e)]
      simp [entriesLen, String.length_append]
      omega

  simpa [String.join, entriesLen] using aux l ""

/-- Modelled from the spec: the worker loop over one shard.  A dispatched
WorkItem covers the sub-range [lo, hi) of the shard's key space; the given
list holds the stored entries of that sub-range in key order.  The worker
pops the item, fills one batch via `handleWorkItem` and, when the range is
not exhausted, re-enqueues the remainder sub-range as a new WorkItem.
Returns the list of all dispatched sub-ranges and the list of emitted
batches (each batch as its list of entries, in emission order). -/
def dumpRange (b : Nat) (hi : Nat) :
    List String → Nat → List (Nat × Nat) × List (List String)
  | [], lo => ([(lo, hi)], [])
  | e :: rest, lo =>
    let fb := handleWorkItem b (e :: rest)
    if fb.2 = [] then ([(lo, hi)], [fb.1])
    else
      let tail := dumpRange b hi fb.2 (lo + fb.1.length)
      ((lo, hi) :: tail.1, fb.1 :: tail.2)
  termination_by l _ => l.length
  decreasing_by
    simpa [fb, handleWorkItem] using fillBatch_consumes b e rest

/-- Modelled from the spec: dumping a whole shard seeded with one
full-range WorkItem covering [0, n) where n is the number of stored
entries of the shard. -/
def dumpShard (b : Nat) (S : List String) :
    List (Nat × Nat) × List (List String) :=
  dumpRange b S.length S 0

/-- The batches emitted for one shard, as `Batch` values: the shard name
together with the concatenated serialized content of the batch entries. -/
def batchesOf (shard : String) (b : Nat) (S : List String) : List Batch :=
  (dumpShard b S).2.map (fun c => { shard := shard, content := String.join c })

theorem dumpRange_join (b : Nat) : ∀ (n : Nat) (l : List String),
    l.length ≤ n → ∀ (hi lo : Nat), (dumpRange b hi l lo).2.flatten = l := by
  intro n
  induction n with
  | zero =>
    intro l hl hi lo
    have : l = [] := List.length_eq_zero.mp (Nat.le_zero.mp hl)
    subst this
    simp [dumpRange]
  | succ n ih =>
    intro l hl hi lo
    match l with
    | [] => simp [dumpRange]
    | e :: rest =>
      have hsplit := fillBatch_append b (e :: rest) []
      rw [dumpRange]
      by_cases hfb : (handleWorkItem b (e :: rest)).2 = []
      · simp only [hfb, if_pos rfl]
        simp only [handleWorkItem] at hfb
        simpa [hfb] using hsplit
      · have hcons : (handleWorkItem b (e :: rest)).2.length ≤ n := by
          have := fillBatch_consumes b e rest
          simp only [handleWorkItem]
          omega
        simp only [if_neg hfb, List.flatten_cons]
        rw [ih _ hcons]
        simpa [handleWorkItem] using hsplit

theorem dumpRange_head (b hi lo : Nat) (l : List String) :
    ∃ t, (dumpRange b hi l lo).1 = (lo, hi) :: t := by
  match l with
  | [] => exact ⟨[], by simp [dumpRange]⟩
  | e :: rest =>
    rw [dumpRange]
    split
    · exact ⟨[], rfl⟩
    · exact ⟨_, rfl⟩

theorem dumpRange_batch_le (b : Nat) : ∀ (n : Nat) (l : List String),
    l.length ≤ n → (∀ e ∈ l, e.length ≤ b) →
    ∀ (hi lo : Nat) (c : List String), c ∈ (dumpRange b hi l lo).2 →
      entriesLen c ≤ b := by
  intro n
  induction n with
  | zero =>
    intro l hl _ hi lo c hc
    have : l = [] := List.length_eq_zero.mp (Nat.le_zero.mp hl)
    subst this
    simp [dumpRange] at hc
  | succ n ih =>
    intro l hl hb hi lo c hc
    match l with
    | [] => simp [dumpRange] at hc
    | e :: rest =>
      have hhead : entriesLen (handleWorkItem b (e :: rest)).1 ≤ b := by
        simp only [handleWorkItem]
        exact fillBatch_len_le b (e :: rest) hb [] (by simp [entriesLen])
      rw [dumpRange] at hc
      by_cases hfb : (handleWorkItem b (e :: rest)).2 = []
      · rw [if_pos hfb] at hc
        simp only [List.mem_singleton] at hc
        subst hc
        exact hhead
      · rw [if_neg hfb] at hc
        simp only [List.mem_cons] at hc
        rcases hc with hc | hc
        · subst hc
          exact hhead
        · have hcons : (handleWorkItem b (e :: rest)).2.length ≤ n := by
            have := fillBatch_consumes b e rest
            simp only [handleWorkItem]
            omega
          refine ih _ hcons ?_ hi _ c hc
          intro x hx
          refine hb x ?_
          have hsplit := fillBatch_append b (e :: rest) []
          have : x ∈ (fillBatch b [] (e :: rest)).1 ++
              (fillBatch b [] (e :: rest)).2 := by
            simp only [handleWorkItem] at hx
            exact List.mem_append_right _ hx
          rw [hsplit] at this
          simpa using this

/-- The immutable identity fields of `RocksDBDumpContext`: `_id`, `_user`,
`_database` are const members set at construction, together with the const
options.  Engine resources (guards, snapshot, threads) are omitted. -/
structure RocksDBDumpContext where
  id : String
  user : String
  database : String
  options : RocksDBDumpContextOptions
deriving Repr, DecidableEq

/-- Modelled from the spec: the body of `RocksDBDumpContext::canAccess` is
not part of the excerpt (only its declaration and doc comment, "check
whether the context is for database <database> and was created by <user>").
Per the spec it returns true iff both arguments match the stored values
exactly (case-sensitive, no partial matches). -/
def RocksDBDumpContext.canAccess (c : RocksDBDumpContext)
    (database user : String) : Bool :=
  database == c.database && user == c.user

end ArangoDump

namespace ArangoDump

/-- C10: `WorkItem.empty` is true iff the collection pointer is null, the
lower bound is 0 and the upper bound is UINT64_MAX; a default-constructed
WorkItem is exactly the sentinel, and a WorkItem with a null collection but
a restricted sub-range is not the sentinel. -/
theorem workitem_empty_iff_sentinel :
    (∀ w : WorkItem,
      w.empty = true ↔
        (w.collection = none ∧ w.lowerBound = 0 ∧ w.upperBound = UINT64MAX))
    ∧ WorkItem.defaultItem.empty = true
    ∧ (∀ w : WorkItem, w.collection = none →
        (w.lowerBound ≠ 0 ∨ w.upperBound ≠ UINT64MAX) → w.empty = false) := by
  refine ⟨fun w => ?_, rfl, fun w hc hr => ?_⟩
  · simp [WorkItem.empty, Option.isNone_iff_eq_none, and_assoc]
  · simp only [WorkItem.empty, hc, Option.isNone_none, Bool.true_and]
    rcases hr with h | h <;> simp [h]

/-- Closed-form instance of `workitem_empty_iff_sentinel` at concrete work
items, discharging its hypotheses. -/
theorem workitem_empty_iff_sentinel_witness :
    (WorkItem.defaultItem.empty = true)
    ∧ (WorkItem.mk none 5 UINT64MAX).empty = false := by
  refine ⟨workitem_empty_iff_sentinel.2.1, ?_⟩
  exact workitem_empty_iff_sentinel.2.2 (WorkItem.mk none 5 UINT64MAX) rfl
    (Or.inl (by decide))

/-- C7: `canAccess database user` is true iff `database` equals the stored
database name and `user` equals the stored user name, both by exact string
equality; the condition mentions no other field of the context. -/
theorem canAccess_iff_exact_match :
    ∀ (c : RocksDBDumpContext) (database user : String),
      c.canAccess database user = true ↔
        (database = c.database ∧ user = c.user) := by
  intro c database user
  simp [RocksDBDumpContext.canAccess]

/-- C9: parsing a configuration document ignores unrecognized fields, gives
every missing field its default (batchSize 16384, prefetchCount 2,
parallelism 2, ttl 600, shards []), and a present field overrides exactly
its own default. -/
theorem parse_options_defaults_and_overrides :
    (∀ (doc : List (String × FieldVal)) (name : String) (v : FieldVal),
      name ∉ ["batchSize", "prefetchCount", "parallelism", "ttl", "shards"] →
      parseRocksDBDumpContextOptions ((name, v) :: doc) =
        parseRocksDBDumpContextOptions doc)
    ∧ parseRocksDBDumpContextOptions [] =
        { batchSize := 16384, prefetchCount := 2, parallelism := 2,
          ttl := 600, shards := [] }
    ∧ (∀ (doc : List (String × FieldVal)),
        (lookupField doc "batchSize" = none →
          (parseRocksDBDumpContextOptions doc).batchSize = 16384)
        ∧ (lookupField doc "prefetchCount" = none →
          (parseRocksDBDumpContextOptions doc).prefetchCount = 2)
        ∧ (lookupField doc "parallelism" = none →
          (parseRocksDBDumpContextOptions doc).parallelism = 2)
        ∧ (lookupField doc "ttl" = none →
          (parseRocksDBDumpContextOptions doc).ttl = 600)
        ∧ (lookupField doc "shards" = none →
          (parseRocksDBDumpContextOptions doc).shards = []))
    ∧ (∀ (doc : List (String × FieldVal)),
        (∀ n, lookupField doc "batchSize" = some (.num n) →
          (parseRocksDBDumpContextOptions doc).batchSize = n)
        ∧ (∀ n, lookupField doc "prefetchCount" = some (.num n) →
          (parseRocksDBDumpContextOptions doc).prefetchCount = n)
        ∧ (∀ n, lookupField doc "parallelism" = some (.num n) →
          (parseRocksDBDumpContextOptions doc).parallelism = n)
        ∧ (∀ q, lookupField doc "ttl" = some (.dbl q) →
          (parseRocksDBDumpContextOptions doc).ttl = q)
        ∧ (∀ l, lookupField doc "shards" = some (.strs l) →
          (parseRocksDBDumpContextOptions doc).shards = l)) := by
  refine ⟨fun doc name v hname => ?_, rfl, fun doc => ?_, fun doc => ?_⟩
  · simp only [List.mem_cons, List.mem_singleton, not_or] at hname
    have hb : (name == "batchSize") = false := by simp [hname.1]
    have hp : (name == "prefetchCount") = false := by simp [hname.2.1]
    have hl : (name == "parallelism") = false := by simp [hname.2.2.1]
    have ht : (name == "ttl") = false := by simp [hname.2.2.2.1]
    have hs : (name == "shards") = false := by simp [hname.2.2.2.2]
    simp [parseRocksDBDumpContextOptions, lookupField, List.find?, hb, hp,
      hl, ht, hs]
  · refine ⟨fun h => ?_, fun h => ?_, fun h => ?_, fun h => ?_, fun h => ?_⟩ <;>
      simp [parseRocksDBDumpContextOptions, h]
  · refine ⟨fun n h => ?_, fun n h => ?_, fun n h => ?_, fun q h => ?_,
      fun l h => ?_⟩ <;>
      simp [parseRocksDBDumpContextOptions, h]

/-- Closed-form instance of `parse_options_defaults_and_overrides`: a
document with one unrecognized field and an overridden batchSize parses to
defaults except batchSize. -/
theorem parse_options_defaults_and_overrides_witness :
    parseRocksDBDumpContextOptions
        [("unknownField", .num 7), ("batchSize", .num 100)] =
      parseRocksDBDumpContextOptions [("batchSize", .num 100)]
    ∧ (parseRocksDBDumpContextOptions [("batchSize", .num 100)]).batchSize
        = 100
    ∧ (parseRocksDBDumpContextOptions [("batchSize", .num 100)]).ttl = 600 := by
  refine ⟨parse_options_defaults_and_overrides.1 [("batchSize", .num 100)]
    "unknownField" (.num 7) (by decide), ?_, ?_⟩
  · exact (parse_options_defaults_and_overrides.2.2.2
      [("batchSize", .num 100)]).1 100 rfl
  · exact ((parse_options_defaults_and_overrides.2.2.1
      [("batchSize", .num 100)]).2.2.2.1 rfl)

end ArangoDump

namespace ArangoDump

/-- C1: for every configured batchSize b, every batch emitted by the
handleWorkItem loop has content length at most b (a final remainder batch
may be shorter, never longer), given that each stored entry's serialized
form fits in b bytes. -/
theorem handleWorkItem_batch_size_bound :
    ∀ (shard : String) (b : Nat) (S : List String),
      (∀ e ∈ S, e.length ≤ b) →
      ∀ batch ∈ batchesOf shard b S, batch.content.length ≤ b := by
  intro shard b S hS batch hbatch
  simp only [batchesOf, List.mem_map] at hbatch
  obtain ⟨c, hc, rfl⟩ := hbatch
  simp only [string_join_length]
  exact dumpRange_batch_le b S.length S (le_refl _) hS S.length 0 c hc

/-- Closed-form instance of `handleWorkItem_batch_size_bound`: dumping the
shard entries ["ab", "cd", "e"] with batchSize 4 emits a first batch of
exactly 4 bytes and a shorter remainder batch, both within the bound. -/
theorem handleWorkItem_batch_size_bound_witness :
    (Batch.mk "s1" "abcd") ∈ batchesOf "s1" 4 ["ab", "cd", "e"]
    ∧ (Batch.mk "s1" "abcd").content.length ≤ 4 := by
  have h1 : "ab".length = 2 := rfl
  have h2 : "cd".length = 2 := rfl
  have h3 : "e".length = 1 := rfl
  have hcomp : batchesOf "s1" 4 ["ab", "cd", "e"] =
      [Batch.mk "s1" "abcd", Batch.mk "s1" "e"] := by
    simp only [batchesOf, dumpShard]
    rw [dumpRange]
    simp [handleWorkItem, fillBatch, entriesLen, h1, h2, h3]
    rw [dumpRange]
    simp [handleWorkItem, fillBatch, entriesLen, h1, h2, h3]
    constructor <;> rfl
  have hmem : (Batch.mk "s1" "abcd") ∈ batchesOf "s1" 4 ["ab", "cd", "e"] := by
    rw [hcomp]
    exact List.mem_cons_self _ _
  exact ⟨hmem, handleWorkItem_batch_size_bound "s1" 4 ["ab", "cd", "e"]
    (by intro e he; fin_cases he <;> decide) (Batch.mk "s1" "abcd") hmem⟩

/-- C2: work partitioning is lossless and non-overlapping: concatenating
the emitted batches of a shard in dispatch order yields exactly the shard's
stored entries (so every entry appears in exactly one batch), and every key
of the seeded full range [0, n) is covered by some dispatched WorkItem
sub-range. -/
theorem work_partitioning_lossless :
    ∀ (b : Nat) (S : List String),
      (dumpShard b S).2.flatten = S
      ∧ (∀ k, k < S.length →
          ∃ r ∈ (dumpShard b S).1, r.1 ≤ k ∧ k < r.2) := by
  intro b S
  constructor
  · exact dumpRange_join b S.length S (le_refl _) S.length 0
  · intro k hk
    obtain ⟨t, ht⟩ := dumpRange_head b S.length 0 S
    refine ⟨(0, S.length), ?_, Nat.zero_le k, hk⟩
    simp [dumpShard, ht]

/-- Closed-form instance of `work_partitioning_lossless` at a concrete
shard: the batches of ["ab", "cd", "e"] at batchSize 4 concatenate back to
the shard's entries and key 2 is covered by a dispatched range. -/
theorem work_partitioning_lossless_witness :
    (dumpShard 4 ["ab", "cd", "e"]).2.flatten = ["ab", "cd", "e"]
    ∧ (∃ r ∈ (dumpShard 4 ["ab", "cd", "e"]).1, r.1 ≤ 2 ∧ 2 < r.2) :=
  ⟨(work_partitioning_lossless 4 ["ab", "cd", "e"]).1,
   (work_partitioning_lossless 4 ["ab", "cd", "e"]).2 2 (by decide)⟩

end ArangoDump

namespace ArangoDump

/-- Embeds `arangodb::Result` as used by the queue: success or an error
with a numeric error code. -/
inductive DumpResult where
  | success
  | failure (errorNumber : Nat)
deriving Repr, DecidableEq

/-- Whether a result is the success result. -/
def DumpResult.ok : DumpResult → Bool
  | .success => true
  | .failure _ => false

/-- The private state of `RocksDBDumpContext::WorkItems`: the pending work
items (`_work`), the completion flag (`_completed`), the count of workers
currently waiting (`_waitingWorkers`), the configured worker count
(`_numWorkers`) and the latched result (`_result`).  The mutex and
condition variable serialize access; here each operation is one atomic
step on this state. -/
structure WorkItemsState where
  work : List WorkItem
  completed : Bool
  waitingWorkers : Nat
  numWorkers : Nat
  result : DumpResult
deriving Repr, DecidableEq

namespace WorkItems

/-- Modelled from the spec: the body of `WorkItems::setError` is not part
of the excerpt.  Per the spec it latches the first non-success result only
(subsequent calls are no-ops) and immediately forces Completed, waking all
waiters. -/
def setError (s : WorkItemsState) (res : DumpResult) : WorkItemsState :=
  if res.ok = false ∧ s.result.ok = true then
    { s with result := res, completed := true }
  else s

/-- Modelled from the spec: `WorkItems::stop` forces the transition to
Completed; all blocked pop calls then receive the empty sentinel. -/
def stop (s : WorkItemsState) : WorkItemsState :=
  { s with completed := true }

/-- Modelled from the spec: `WorkItems::push` inserts a work item (no new
items once completed) and wakes one waiting worker. -/
def push (s : WorkItemsState) (w : WorkItem) : WorkItemsState :=
  if s.completed then s else { s with work := w :: s.work }

/-- Outcome of one check iteration of `WorkItems::pop`: either an item is
handed to the worker (possibly the empty sentinel) or the worker blocks on
the condition variable and will re-check after being woken. -/
inductive PopOutcome where
  | item (w : WorkItem)
  | blocked
deriving Repr, DecidableEq

/-- Modelled from the spec: one check iteration of `WorkItems::pop`.  Once
completed, every pop returns the empty sentinel item.  Otherwise a pending
item, if any, is removed and returned.  Otherwise the worker registers as
idle; if the now-idle count equals the worker count while no item is
pending, the queue transitions to Completed (returning the sentinel and
waking the others), else the worker blocks. -/
def pop (s : WorkItemsState) : PopOutcome × WorkItemsState :=
  if s.completed then (.item WorkItem.defaultItem, s)
  else
    match s.work with
    | w :: rest => (.item w, { s with work := rest })
    | [] =>
      if s.waitingWorkers + 1 = s.numWorkers then
        (.item WorkItem.defaultItem,
          { s with completed := true,
                   waitingWorkers := s.waitingWorkers + 1 })
      else (.blocked, { s with waitingWorkers := s.waitingWorkers + 1 })

end WorkItems

/-- An event of the work-partitioning queue: one atomic operation under the
queue's lock. -/
inductive QEvent where
  | push (w : WorkItem)
  | pop
  | stop
  | setErr (r : DumpResult)
deriving Repr, DecidableEq

/-- State transition of the queue for one event. -/
def qstep (s : WorkItemsState) : QEvent → WorkItemsState
  | .push w => WorkItems.push s w
  | .pop => (WorkItems.pop s).2
  | .stop => WorkItems.stop s
  | .setErr r => WorkItems.setError s r

theorem qstep_mono (s : WorkItemsState) (e : QEvent)
    (h : s.completed = true) : (qstep s e).completed = true := by
  cases e with
  | push w => simp [qstep, WorkItems.push, h]
  | pop => simp [qstep, WorkItems.pop, h]
  | stop => simp [qstep, WorkItems.stop]
  | setErr r =>
    simp only [qstep, WorkItems.setError]
    split <;> simp [h]

/-- C5: the Completed state is monotone along every event trace (hence
entered at most once); a step enters it exactly on a stop, on a first
latching setError, or on a pop that finds no pending item with all other
workers already idle; and once completed every pop returns the empty
sentinel work item without changing the state. -/
theorem queue_completed_once_and_sentinel :
    (∀ (s : WorkItemsState) (es : List QEvent),
      s.completed = true → (es.foldl qstep s).completed = true)
    ∧ (∀ (s : WorkItemsState) (e : QEvent), s.completed = false →
        ((qstep s e).completed = true ↔
          (e = .stop
           ∨ (∃ r, e = .setErr r ∧ r.ok = false ∧ s.result.ok = true)
           ∨ (e = .pop ∧ s.work = []
              ∧ s.waitingWorkers + 1 = s.numWorkers))))
    ∧ (∀ s : WorkItemsState, s.completed = true →
        WorkItems.pop s = (.item WorkItem.defaultItem, s)) := by
  refine ⟨fun s es => ?_, fun s e hs => ?_, fun s hs => ?_⟩
  · induction es generalizing s with
    | nil => intro h; simpa using h
    | cons e es ih =>
      intro h
      simpa using ih (qstep s e) (qstep_mono s e h)
  · cases e with
    | push w =>
      simp [qstep, WorkItems.push, hs]
    | pop =>
      simp only [qstep, WorkItems.pop, hs, if_neg Bool.false_ne_true]
      match hw : s.work with
      | w :: rest => simp [hw, hs]
      | [] =>
        by_cases hn : s.waitingWorkers + 1 = s.numWorkers
        · simp [hn, hs]
        · simp [hn, hs]
    | stop =>
      simp [qstep, WorkItems.stop]
    | setErr r =>
      simp only [qstep, WorkItems.setError]
      by_cases hc : r.ok = false ∧ s.result.ok = true
      · rw [if_pos hc]
        simp [hc.1, hc.2]
      · rw [if_neg hc, hs]
        simp only [Bool.false_eq_true, false_iff]
        rintro (h | ⟨r2, hr2, hok, hres⟩ | ⟨h, -, -⟩)
        · cases h
        · cases hr2
          exact hc ⟨hok, hres⟩
        · cases h
  · simp [WorkItems.pop, hs]

/-- Closed-form instance of `queue_completed_once_and_sentinel`: with two
workers, one already idle, a pop on an empty pending set completes the
queue; a completed queue answers pop with the sentinel; and completion
survives further events. -/
theorem queue_completed_once_and_sentinel_witness :
    (qstep ⟨[], false, 1, 2, .success⟩ .pop).completed = true
    ∧ WorkItems.pop ⟨[], true, 2, 2, .success⟩ =
        (.item WorkItem.defaultItem, ⟨[], true, 2, 2, .success⟩)
    ∧ ([QEvent.push WorkItem.defaultItem, QEvent.pop].foldl qstep
        ⟨[], true, 2, 2, .success⟩).completed = true := by
  refine ⟨?_, ?_, ?_⟩
  · exact (queue_completed_once_and_sentinel.2.1
      ⟨[], false, 1, 2, .success⟩ .pop rfl).mpr
      (Or.inr (Or.inr ⟨rfl, rfl, rfl⟩))
  · exact queue_completed_once_and_sentinel.2.2 ⟨[], true, 2, 2, .success⟩ rfl
  · exact queue_completed_once_and_sentinel.1 ⟨[], true, 2, 2, .success⟩
      [QEvent.push WorkItem.defaultItem, QEvent.pop] rfl

end ArangoDump

namespace ArangoDump

/-- Outcome of a call to `RocksDBDumpContext::next`: a registry violation
(unknown or doubly retired batch id), the latched error, the empty result
(no more data), a delivered batch, or a block on the empty channel (the
call has not returned yet). -/
inductive NextOutcome where
  | violation
  | err (r : DumpResult)
  | exhausted
  | batch (b : Batch)
  | blocked
deriving Repr, DecidableEq

/-- The consumer-visible state of a dump context: the pending batches of
the bounded channel (`_channel`, in delivery order), the completion flag
and latched result of the work queue, and the batch registry (`_batches`,
id to retained batch). -/
structure ContextState where
  channel : List Batch
  completed : Bool
  qresult : DumpResult
  batches : List (Nat × Batch)
deriving Repr, DecidableEq

/-- Modelled from the spec: erasing a batch id from `_batches`.  The erase
succeeds only when the id is present; erasing an id never issued, or
already erased, is a caller contract violation and is rejected. -/
def retireBatch (reg : List (Nat × Batch)) (k : Nat) :
    Option (List (Nat × Batch)) :=
  if reg.any (fun p => p.1 == k) then
    some (reg.filter (fun p => p.1 != k))
  else none

/-- Modelled from the spec: the delivery phase of
`RocksDBDumpContext::next` after the optional retirement.  A latched error
propagates to the caller; otherwise the next completed batch, if any, is
popped from the channel and stored in the registry under the assigned
batchId before the call returns; otherwise the call returns the empty
result when the queue has completed, and blocks until woken when it has
not. -/
def nextPop (s : ContextState) (batchId : Nat) :
    NextOutcome × ContextState :=
  if s.qresult.ok = false then (.err s.qresult, s)
  else
    match s.channel with
    | b :: rest =>
      (.batch b,
        { s with channel := rest, batches := (batchId, b) :: s.batches })
    | [] =>
      if s.completed then (.exhausted, s) else (.blocked, s)

/-- Modelled from the spec: the body of `RocksDBDumpContext::next` is not
part of the excerpt (declaration and doc comment only).  If `lastBatch` is
present, that batch id is retired from the registry first (a violation is
rejected without touching anything else); then the next batch is delivered
as in `nextPop`. -/
def next (s : ContextState) (batchId : Nat) (lastBatch : Option Nat) :
    NextOutcome × ContextState :=
  match lastBatch with
  | some k =>
    match retireBatch s.batches k with
    | none => (.violation, s)
    | some reg => nextPop { s with batches := reg } batchId
  | none => nextPop s batchId

/-- C3: the first setError with a non-success result latches that result
and forces Completed; every later setError leaves the latched result
unchanged; and any next call on a context whose queue latched that result
returns the error itself (not the empty result) and leaves the state, in
particular the batch registry, unchanged. -/
theorem setError_latches_first_error :
    ∀ (s : WorkItemsState) (res : DumpResult),
      s.result.ok = true → res.ok = false →
      ((WorkItems.setError s res).result = res
       ∧ (WorkItems.setError s res).completed = true
       ∧ (∀ res2,
           (WorkItems.setError (WorkItems.setError s res) res2).result = res)
       ∧ (∀ (cs : ContextState) (batchId : Nat), cs.qresult = res →
           next cs batchId none = (.err res, cs))) := by
  intro s res hok hfail
  have hlatch : WorkItems.setError s res =
      { s with result := res, completed := true } := by
    rw [WorkItems.setError, if_pos ⟨hfail, hok⟩]
  refine ⟨by rw [hlatch], by rw [hlatch], fun res2 => ?_, fun cs batchId hq => ?_⟩
  · rw [hlatch]
    rw [WorkItems.setError]
    split
    · rename_i hcond
      exact absurd hcond.2 (by simp [hfail])
    · rfl
  · rw [next, nextPop, hq, hfail]
    simp

/-- Closed-form instance of `setError_latches_first_error`: error 1500 is
latched over an initially successful queue, a second setError with error
77 does not replace it, and a next call under the latched error returns
that error with the context unchanged. -/
theorem setError_latches_first_error_witness :
    (WorkItems.setError ⟨[], false, 0, 2, .success⟩ (.failure 1500)).result
        = .failure 1500
    ∧ (WorkItems.setError
        (WorkItems.setError ⟨[], false, 0, 2, .success⟩ (.failure 1500))
        (.failure 77)).result = .failure 1500
    ∧ next ⟨[Batch.mk "s" "x"], true, .failure 1500, []⟩ 3 none =
        (.err (.failure 1500), ⟨[Batch.mk "s" "x"], true, .failure 1500, []⟩) := by
  have h := setError_latches_first_error ⟨[], false, 0, 2, .success⟩
    (.failure 1500) rfl rfl
  exact ⟨h.1, h.2.2.1 (.failure 77),
    h.2.2.2 ⟨[Batch.mk "s" "x"], true, .failure 1500, []⟩ 3 rfl⟩

/-- C4: a next call retiring a batch id that is not in the registry
(never issued, or already retired) is rejected as a violation and leaves
the whole context state unchanged; and after a successful retirement the
id is gone from the registry, so a second retirement of it fails. -/
theorem retire_unknown_id_rejected :
    (∀ (s : ContextState) (batchId k : Nat),
      (∀ b, (k, b) ∉ s.batches) →
      next s batchId (some k) = (.violation, s))
    ∧ (∀ (reg : List (Nat × Batch)) (k : Nat) (reg2 : List (Nat × Batch)),
        retireBatch reg k = some reg2 → ∀ b, (k, b) ∉ reg2) := by
  constructor
  · intro s batchId k h
    have hany : s.batches.any (fun p => p.1 == k) = false := by
      rw [List.any_eq_false]
      rintro ⟨i, b⟩ hp
      simp only [beq_iff_eq]
      intro hik
      subst hik
      exact h b hp
    rw [next, retireBatch, hany]
    simp
  · intro reg k reg2 hret b hmem
    rw [retireBatch] at hret
    split at hret
    · cases hret
      have := List.of_mem_filter hmem
      simp at this
    · cases hret

/-- Closed-form instance of `retire_unknown_id_rejected`: retiring id 5
from a context that never issued it is rejected without a state change,
and after id 3 is erased it is no longer present. -/
theorem retire_unknown_id_rejected_witness :
    next ⟨[], false, .success, [(1, Batch.mk "s" "x")]⟩ 2 (some 5) =
        (.violation, ⟨[], false, .success, [(1, Batch.mk "s" "x")]⟩)
    ∧ (Batch.mk "s" "x") ∉
        ((retireBatch [(3, Batch.mk "s" "x")] 3).getD []).map Prod.snd := by
  constructor
  · refine retire_unknown_id_rejected.1 _ 2 5 ?_
    intro b hb
    simp at hb
  · intro hmem
    simp only [List.mem_map] at hmem
    obtain ⟨⟨i, b⟩, hp, rfl⟩ := hmem
    have hi : i = 3 := by
      have : retireBatch [(3, Batch.mk "s" "x")] 3 = some [] := by
        rw [retireBatch]
        simp
      rw [this] at hp
      simp at hp
    have : retireBatch [(3, Batch.mk "s" "x")] 3 = some [] := by
      rw [retireBatch]
      simp
    rw [this] at hp
    simp at hp

/-- C8: next (with no retirement requested) returns the empty result
exactly when the queue completed without a latched error and the channel
holds no batch; a returned batch is the channel's next batch and is stored
in the registry under the assigned batchId in the returned state; and the
call blocks (has not returned) exactly when no batch is available and the
queue is not completed and no error is latched. -/
theorem next_blocks_registers_and_empty_iff :
    ∀ (s : ContextState) (batchId : Nat),
      ((next s batchId none).1 = .exhausted ↔
        (s.qresult.ok = true ∧ s.channel = [] ∧ s.completed = true))
      ∧ (∀ b, (next s batchId none).1 = .batch b →
          s.channel.head? = some b
          ∧ (batchId, b) ∈ (next s batchId none).2.batches)
      ∧ ((next s batchId none).1 = .blocked ↔
        (s.qresult.ok = true ∧ s.channel = [] ∧ s.completed = false)) := by
  intro s batchId
  by_cases hq : s.qresult.ok = false
  · refine ⟨?_, ?_, ?_⟩ <;> simp [next, nextPop, hq]
  · rw [Bool.not_eq_false] at hq
    match hch : s.channel with
    | [] =>
      by_cases hcomp : s.completed = true
      · refine ⟨?_, ?_, ?_⟩ <;> simp [next, nextPop, hq, hch, hcomp]
      · rw [Bool.not_eq_true] at hcomp
        refine ⟨?_, ?_, ?_⟩ <;> simp [next, nextPop, hq, hch, hcomp]
    | b0 :: rest =>
      refine ⟨?_, ?_, ?_⟩
      · simp [next, nextPop, hq, hch]
      · intro b hb
        simp [next, nextPop, hq, hch] at hb
        subst hb
        simp [next, nextPop, hq, hch]
      · simp [next, nextPop, hq, hch]

/-- Closed-form instance of `next_blocks_registers_and_empty_iff`: on a
context with one pending batch the call delivers it and registers it under
id 7; on a completed empty context the call returns the empty result. -/
theorem next_blocks_registers_and_empty_iff_witness :
    ((next ⟨[Batch.mk "s" "x"], false, .success, []⟩ 7 none).1 =
        .batch (Batch.mk "s" "x")
      ∧ (7, Batch.mk "s" "x") ∈
        (next ⟨[Batch.mk "s" "x"], false, .success, []⟩ 7 none).2.batches)
    ∧ (next ⟨[], true, .success, []⟩ 7 none).1 = .exhausted := by
  constructor
  · have h := (next_blocks_registers_and_empty_iff
      ⟨[Batch.mk "s" "x"], false, .success, []⟩ 7).2.1
      (Batch.mk "s" "x") rfl
    exact ⟨rfl, h.2⟩
  · exact (next_blocks_registers_and_empty_iff
      ⟨[], true, .success, []⟩ 7).1.mpr ⟨rfl, rfl, rfl⟩

end ArangoDump

namespace ArangoDump

/-- Modelled from the spec: the body of
`RocksDBDumpContext::extendLifetime` is not part of the excerpt
(declaration and comment only: "extend the contexts lifetime, by adding
TTL to the current time and storing it in _expires").  The call atomically
stores now + ttl into the atomic `_expires`; timestamps (seconds since
1970/1/1, C++ double) are modelled as rationals. -/
def extendLifetime (ttl now : ℚ) : ℚ := now + ttl

/-- The successive values taken by `_expires` over the life of a context:
the constructor establishes the value for creation time t0 and each
subsequent extendLifetime call, made at the corresponding time in the
list, overwrites it.  Concurrent calls are atomic stores, so an execution
is the sequence of stores in their commit order. -/
def expiresHistory (ttl t0 : ℚ) (times : List ℚ) : List ℚ :=
  (t0 :: times).map (fun t => extendLifetime ttl t)

/-- C6: every extendLifetime call at time t sets expires to t + ttl (so
expires then exceeds the call time by exactly ttl); and when the call
times are non-decreasing (atomic stores in time order) and ttl is
non-negative, the successive values of expires are monotonically
non-decreasing over the whole life of the context. -/
theorem extendLifetime_sets_now_plus_ttl_and_monotone :
    ∀ (ttl t0 : ℚ) (times : List ℚ),
      0 ≤ ttl → List.Chain' (fun a b => a ≤ b) (t0 :: times) →
      ((∀ t ∈ times, extendLifetime ttl t = t + ttl)
       ∧ List.Chain' (fun a b => a ≤ b) (expiresHistory ttl t0 times)
       ∧ (0 < ttl → ∀ t ∈ times, t < extendLifetime ttl t)) := by
  intro ttl t0 times httl hchain
  refine ⟨fun t _ => rfl, ?_, fun hpos t _ => ?_⟩
  · rw [expiresHistory, List.chain'_map]
    exact hchain.imp (fun a b hab => by
      simp only [extendLifetime]
      exact add_le_add_right hab ttl)
  · simp only [extendLifetime]
    exact lt_add_of_pos_right t hpos

/-- Closed-form instance of
`extendLifetime_sets_now_plus_ttl_and_monotone` at ttl 600 with calls at
times 10 and 25 on a context created at time 0. -/
theorem extendLifetime_sets_now_plus_ttl_and_monotone_witness :
    extendLifetime 600 10 = 10 + 600
    ∧ List.Chain' (fun a b => a ≤ b) (expiresHistory 600 0 [10, 25])
    ∧ (25 : ℚ) < extendLifetime 600 25 := by
  have h := extendLifetime_sets_now_plus_ttl_and_monotone 600 0 [10, 25]
    (by norm_num)
    (by simp only [List.chain'_cons, List.chain'_singleton, and_true]
        norm_num)
  exact ⟨h.1 10 (by simp), h.2.1,
    h.2.2 (by norm_num) 25 (by simp)⟩

end ArangoDump
